import Mathlib

/-!
# SiteMonitor — change-detection and scheduler backend, shallow embedding

This file embeds the backend logic of the SiteMonitor repository
(`src/website-monitor.js` and the Express server with the 1-second
scheduler) as executable Lean definitions, and proves the specified
properties of the change-detection pipeline, the persistence write path,
the cron-string parser and the check orchestrator.

Modelling conventions:
* JS strings are Lean `String`s; string algorithms that must evaluate in
  the kernel work on `String.data` (`List Char`).
* `localeCompare` on URLs is modelled by byte-wise lexicographic
  comparison of the character sequences (`lexLe`).  `Array.prototype.sort`
  is stable per the ECMAScript specification, so it is modelled by the
  stable `List.insertionSort`.
* `generateHash` (`md5(JSON.stringify(xs))`) is modelled by the identity
  on its input list: md5 composed with the JSON encoding is treated as an
  injective encoding of the sorted (title, price, url) triple list, so
  fingerprint equality is equality of those sorted lists.
* The SQLite `Listing` table is a `List Stored` in insertion order;
  `findAll`/`destroy` with a `selector` condition are list filters.
* Timestamps (`Date.now()`) are `Int` milliseconds.
-/

namespace SiteMonitor

/-! ## Lexicographic comparison of character sequences

Models `a.localeCompare(b) <= 0` for the URL strings fed to
`sort((a, b) => a.url.localeCompare(b.url))`. -/

/-- Lexicographic `≤` on character lists, comparing scalar values. -/
def lexLe : List Char → List Char → Bool
  | [], _ => true
  | _ :: _, [] => false
  | a :: as, b :: bs =>
    if a.toNat < b.toNat then true
    else if b.toNat < a.toNat then false
    else lexLe as bs

/-- Lexicographic `≤` on strings (models `localeCompare ≤ 0`). -/
def strLe (a b : String) : Bool := lexLe a.data b.data

/-! ## Data model

Fields of a scraped listing that the verified properties mention.  The
extractor's remaining fields (image, seller, location, date, attributes)
play no role in any claim and are elided. -/

/-- One extracted listing candidate. -/
structure Item where
  title : String
  price : String
  url : String
  description : String := ""
deriving DecidableEq, Repr

/-- The stable (title, price, url) triple used for fingerprints and for
duplicate detection. -/
structure Triple where
  title : String
  price : String
  url : String
deriving DecidableEq, Repr

/-- The stable projection `i => ({ title: i.title, price: i.price, url: i.url })`. -/
def tripleOf (i : Item) : Triple := ⟨i.title, i.price, i.url⟩

/-- One row of the `Listing` table: a listing persisted under a target
selector. -/
structure Stored where
  selector : String
  item : Item
deriving DecidableEq, Repr

/-- The triple-equality test used both in `saveContent` (`existsInDb`) and
in `checkWebsite`'s new-item filter:
`o.title === n.title && o.price === n.price && o.url === n.url`. -/
def sameTriple (o n : Item) : Bool :=
  decide (o.title = n.title) && decide (o.price = n.price) && decide (o.url = n.url)

/-! ## Fingerprint (generateHash over stable sorted triples) -/

/-- URL order on triples: `(a, b) => a.url.localeCompare(b.url)` being `≤ 0`. -/
def urlLe (a b : Triple) : Prop := strLe a.url b.url = true

instance : DecidableRel urlLe := fun _ _ => inferInstanceAs (Decidable (_ = true))

/-- The content fingerprint of a listing set:
`generateHash(JSON.stringify(items.map(i => ({title, price, url})).sort(byUrl)))`,
with the injective md5-of-JSON encoding abstracted away, leaving the
sorted triple list itself. -/
def fingerprint (items : List Item) : List Triple :=
  List.insertionSort urlLe (items.map tripleOf)

/-! ## Persistence reads (`Listing.findAll({ where: { selector } })`) -/

/-- All items currently stored for a selector (the rows
`findAll({ where: { selector } })` returns; row order is insertion order,
which no verified property depends on). -/
def storedFor (selector : String) (db : List Stored) : List Item :=
  (db.filter (fun s => decide (s.selector = selector))).map Stored.item

/-- `getPreviousHash(selector)`: `null` when no listings are stored for the
selector, otherwise the fingerprint of the stored listings. -/
def getPreviousHash (selector : String) (db : List Stored) : Option (List Triple) :=
  let listings := storedFor selector db
  if listings.isEmpty then none else some (fingerprint listings)

/-! ## saveContent: delete-then-dedup-then-insert write path -/

/-- The dedup key `` `${item.title}-${item.price}-${item.url}` ``. -/
def itemKey (i : Item) : String := i.title ++ "-" ++ i.price ++ "-" ++ i.url

/-- One step of the `content.items.reduce` accumulator: insert the item
into the key map unless its key is already present (`acc.has(key)`) or an
equal triple is among the rows read back after the delete (`existsInDb`).
JS `Map` preserves insertion order, hence the append. -/
def dedupStep (existingItems : List Item) (acc : List (String × Item)) (item : Item) :
    List (String × Item) :=
  let key := itemKey item
  let existsInDb := existingItems.any (fun e => sameTriple e item)
  if acc.any (fun p => decide (p.1 = key)) = false && existsInDb = false then
    acc ++ [(key, item)]
  else acc

/-- `Array.from(uniqueItems.values())`: the deduplicated batch, in first
occurrence order. -/
def uniqueItemsArray (existingItems : List Item) (items : List Item) : List Item :=
  (items.foldl (dedupStep existingItems) []).map Prod.snd

/-- `saveContent(selector, content)` acting on the listing table:
1. `Listing.destroy({ where: { selector } })`;
2. `Listing.findAll({ where: { selector } })` (read back after the delete);
3. dedup the batch against itself and against that read;
4. `Listing.bulkCreate` of the survivors. -/
def saveContent (selector : String) (items : List Item) (db : List Stored) : List Stored :=
  let db₁ := db.filter (fun s => decide (s.selector ≠ selector))
  let existingItems := (db₁.filter (fun s => decide (s.selector = selector))).map Stored.item
  let uniques := uniqueItemsArray existingItems items
  db₁ ++ uniques.map (fun i => ⟨selector, i⟩)

/-! ## checkWebsite: diff and persist for the configured selector -/

/-- The diff-and-persist tail of `checkWebsite` for one selector: computes
current and previous fingerprints, and when they differ (or no previous
one exists) reads the previous snapshot, overwrites it via `saveContent`,
and computes `newItems`.  Returns the updated table and `newItems`. -/
def runCheckFor (selector : String) (extracted : List Item) (db : List Stored) :
    List Stored × List Item :=
  let currentHash := fingerprint extracted
  match getPreviousHash selector db with
  | none =>
    -- first-ever check for this selector: everything is new
    (saveContent selector extracted db, extracted)
  | some previousHash =>
    if currentHash ≠ previousHash then
      -- fetch previous listings before we overwrite them
      let previousListings := storedFor selector db
      let db' := saveContent selector extracted db
      (db', extracted.filter (fun n => !(previousListings.any (fun o => sameTriple o n))))
    else (db, [])

/-- Summary of one fired check cycle: the updated table, the computed
new-items set, and the selectors for which the extract → diff → persist →
notify pipeline actually ran. -/
structure CheckRun where
  db : List Stored
  newItems : List Item
  processed : List String
deriving DecidableEq, Repr

/-- `checkWebsite()` at the target-selection level: every page wait,
extraction, hash, save and notification in the source uses
`config.website.selectors[0]` and nothing else, so exactly the head
selector is processed; with no configured selector,
`selectors[0]` is `undefined` and the cycle fails (`none`). -/
def checkWebsite (selectors : List String) (extracted : List Item) (db : List Stored) :
    Option CheckRun :=
  match selectors with
  | [] => none
  | sel :: _ =>
    let r := runCheckFor sel extracted db
    some ⟨r.1, r.2, [sel]⟩

/-! ## Extractor validation (the `page.evaluate` item filter) -/

/-- `const isValidItem = title && title.length > 0` followed by
`return isValidItem ? {...} : null`. -/
def validateItem (it : Item) : Option Item :=
  if 0 < it.title.length then some it else none

/-- `items.map(processing).filter(item => item !== null)`: the kept result
set of the extractor. -/
def processedItems (items : List Item) : List Item :=
  (items.map validateItem).filterMap id

/-! ## parseCronToMs -/

/-- Tokenizer worker: `acc` holds the current token's characters in
reverse. -/
def wsTokensAux : List Char → List Char → List (List Char)
  | [], acc => if acc.isEmpty then [] else [acc.reverse]
  | c :: rest, acc =>
    if c.isWhitespace then
      if acc.isEmpty then wsTokensAux rest []
      else acc.reverse :: wsTokensAux rest []
    else wsTokensAux rest (c :: acc)

/-- The maximal non-whitespace runs of a character sequence: the token
list `cron.trim().split(/\s+/)` produces.  (For a whitespace-only string
JS yields `['']` and this model `[]`; both fail the length-5 test, so the
result is the same default.) -/
def wsTokens (cs : List Char) : List (List Char) := wsTokensAux cs []

/-- `minute.startsWith('*/')`, returning `minute.slice(2)` on success. -/
def starSlash : List Char → Option (List Char)
  | '*' :: '/' :: rest => some rest
  | _ => none

/-- Decimal value of a digit run. -/
def digitsVal (ds : List Char) : Nat :=
  ds.foldl (fun n c => 10 * n + (c.toNat - 48)) 0

/-- `parseInt(s, 10)` on a whitespace-free token: optional sign, then the
maximal leading digit run; `NaN` (here `none`) when that run is empty.
Trailing garbage is ignored, exactly as `parseInt` ignores it. -/
def jsParseInt (cs : List Char) : Option Int :=
  match cs with
  | '-' :: rest =>
    let ds := rest.takeWhile Char.isDigit
    if ds.isEmpty then none else some (-(digitsVal ds : Int))
  | '+' :: rest =>
    let ds := rest.takeWhile Char.isDigit
    if ds.isEmpty then none else some (digitsVal ds : Int)
  | _ =>
    let ds := cs.takeWhile Char.isDigit
    if ds.isEmpty then none else some (digitsVal ds : Int)

/-- The minute/hour decision chain of `parseCronToMs`, applied once the
5-field shape is established. -/
def parseCronFields (minute hour : List Char) : Int :=
  match starSlash minute with
  | some rest =>
    match jsParseInt rest with
    | none => 5 * 60 * 1000
    | some n => n * 60 * 1000
  | none =>
    if minute = ['0'] then
      match starSlash hour with
      | some rest =>
        match jsParseInt rest with
        | none => 60 * 60 * 1000
        | some h => h * 60 * 60 * 1000
      | none => 60 * 60 * 1000
    else 5 * 60 * 1000

/-- `parseCronToMs(cron)`: `none` models a non-string (or absent)
argument.  An empty string is falsy in JS and yields the default there;
here it tokenizes to `[]` and falls into the same length-5 failure. -/
def parseCronToMs : Option String → Int
  | none => 5 * 60 * 1000
  | some cron =>
    match wsTokens cron.data with
    | [minute, hour, _, _, _] => parseCronFields minute hour
    | _ => 5 * 60 * 1000

/-! ## Scheduler & check orchestrator (Express server)

The server keeps three module-level variables — `scheduleIntervalMs`,
`nextCheckTs` and the guard `isCheckingRunning` — mutated by the
`POST /api/check` handler, the `POST /api/config` handler, the 1-second
`setInterval` scheduler and `emitListingsUpdate`.  All of these run on the
single Node event loop; from a guard test to the assignments that follow
it there is no `await`, so each of the transitions below is atomic in the
source.  `inflight` is an instrumentation field counting the check cycles
that have been started (guard taken) but not yet finished; the source has
no such variable, it is what "a cycle is running" means. -/

/-- Which code path started the in-flight cycle. -/
inductive CycleKind where
  | manual
  | sched
deriving DecidableEq, Repr

/-- Scheduler state: the three module-level variables plus the
instrumentation list of in-flight cycles. -/
structure SrvState where
  isCheckingRunning : Bool
  inflight : List CycleKind
  nextCheckTs : Int
  scheduleIntervalMs : Int
deriving DecidableEq, Repr

/-- Observable outcome of one event. -/
inductive Resp where
  | accepted
  | busy429
  | fired
  | ok200
  | err500
  | noop
deriving DecidableEq, Repr

/-- Events: a manual `POST /api/check` arriving, a scheduler tick, an
in-flight cycle completing (with the success of `checkWebsite` and of the
`findAll` inside `emitListingsUpdate`), and a `POST /api/config` carrying
a schedule value (`lastTs` is the newest stored listing timestamp, if
any). -/
inductive Ev where
  | manualReq (now : Int)
  | tick (now : Int)
  | cycleEnd (now : Int) (ok : Bool) (emitOk : Bool)
  | configSchedule (now : Int) (lastTs : Option Int) (cron : Option String)

/-- The deadline re-anchoring used at startup and on schedule change:
`nextCheckTs = lastTs + interval`, clamped to `Date.now() + interval`
whenever that lands at or before `Date.now()`. -/
def reAnchor (now lastTs interval : Int) : Int :=
  let ts := lastTs + interval
  if ts ≤ now then now + interval else ts

/-- One atomic transition of the server.

* `manualReq`: the handler returns 429 untouched when the guard is held;
  otherwise it takes the guard, emits `checking` and immediately pushes
  `nextCheckTs` to `now + scheduleIntervalMs` before awaiting the check.
* `tick`: returns when the guard is held; fires only when
  `Date.now() >= nextCheckTs`, taking the guard and bumping `nextCheckTs`
  the same way before awaiting the check.
* `cycleEnd`: the awaited cycle resolves or rejects.  The manual handler
  runs `emitListingsUpdate` only on success and clears the guard in
  `finally`; the scheduler catches the error and always runs
  `emitListingsUpdate`, then clears the guard.  `emitListingsUpdate`
  catches its own errors, so it never rejects, and on its success path it
  re-sets `nextCheckTs = now + scheduleIntervalMs`.
* `configSchedule`: a truthy schedule value is reparsed and the deadline
  re-anchored to the newest listing timestamp (falling back to `now`). -/
def step (s : SrvState) : Ev → SrvState × Resp
  | .manualReq now =>
    if s.isCheckingRunning then (s, .busy429)
    else
      ({ s with isCheckingRunning := true,
                inflight := .manual :: s.inflight,
                nextCheckTs := now + s.scheduleIntervalMs }, .accepted)
  | .tick now =>
    if s.isCheckingRunning then (s, .noop)
    else if s.nextCheckTs ≤ now then
      ({ s with isCheckingRunning := true,
                inflight := .sched :: s.inflight,
                nextCheckTs := now + s.scheduleIntervalMs }, .fired)
    else (s, .noop)
  | .cycleEnd now ok emitOk =>
    match s.inflight with
    | [] => (s, .noop)
    | k :: rest =>
      let emits := (k = CycleKind.sched ∨ ok = true) ∧ emitOk = true
      let ts := if emits then now + s.scheduleIntervalMs else s.nextCheckTs
      ({ s with isCheckingRunning := false, inflight := rest, nextCheckTs := ts },
       if k = CycleKind.manual then (if ok then .ok200 else .err500) else .noop)
  | .configSchedule now lastTs cron =>
    match cron with
    | none => (s, .noop)
    | some c =>
      let interval := parseCronToMs (some c)
      ({ s with scheduleIntervalMs := interval,
                nextCheckTs := reAnchor now (lastTs.getD now) interval }, .noop)

/-- Server start: `scheduleIntervalMs = 5 * 60 * 1000` and
`nextCheckTs = Date.now() + scheduleIntervalMs`, guard down. -/
def initState (startNow : Int) : SrvState :=
  { isCheckingRunning := false
    inflight := []
    nextCheckTs := startNow + 5 * 60 * 1000
    scheduleIntervalMs := 5 * 60 * 1000 }

/-- States the server can actually be in. -/
inductive Reachable : SrvState → Prop where
  | init (startNow : Int) : Reachable (initState startNow)
  | step {s : SrvState} (e : Ev) : Reachable s → Reachable (step s e).1

/-! ## Concrete values used by counterexamples and witnesses -/

/-- Sample listing A. -/
def itemA : Item := ⟨"A", "1", "https://site.example/a", ""⟩

/-- Sample listing B. -/
def itemB : Item := ⟨"B", "2", "https://site.example/b", ""⟩

/-- Sample listing C. -/
def itemC : Item := ⟨"C", "3", "https://site.example/c", ""⟩

/-- A listing with an empty URL (the extractor tolerates these). -/
def itemNoUrlX : Item := ⟨"a", "1", "", ""⟩

/-- A second, distinct listing with the same (empty) URL. -/
def itemNoUrlY : Item := ⟨"b", "2", "", ""⟩

/-- First of two batch entries sharing a (title, price, url) triple. -/
def dupFirst : Item := ⟨"t", "p", "https://site.example/u", "first description"⟩

/-- Second batch entry with the same triple but another description. -/
def dupSecond : Item := ⟨"t", "p", "https://site.example/u", "second description"⟩

/-- Invariant carried through the `reduce` accumulator of `saveContent`:
keys are pairwise distinct and each key is the key of its item. -/
def KeyInv (acc : List (String × Item)) : Prop :=
  (acc.map Prod.fst).Nodup ∧ ∀ p ∈ acc, p.1 = itemKey p.2

/-! ## Order properties of the lexicographic comparator -/

theorem charEq_of_toNat_eq {a b : Char} (h : a.toNat = b.toNat) : a = b :=
  Char.eq_of_val_eq (UInt32.ext h)

theorem lexLe_total : ∀ as bs : List Char, lexLe as bs = true ∨ lexLe bs as = true
  | [], _ => Or.inl rfl
  | _ :: _, [] => Or.inr rfl
  | a :: as, b :: bs => by
    rcases Nat.lt_trichotomy a.toNat b.toNat with h | h | h
    · left; simp [lexLe, h]
    · have h1 : ¬ a.toNat < b.toNat := by omega
      have h2 : ¬ b.toNat < a.toNat := by omega
      rcases lexLe_total as bs with ih | ih
      · left; simp [lexLe, h1, h2, ih]
      · right; simp [lexLe, h1, h2, ih]
    · right; simp [lexLe, h]

theorem lexLe_trans : ∀ (as bs cs : List Char),
    lexLe as bs = true → lexLe bs cs = true → lexLe as cs = true
  | [], _, _, _, _ => rfl
  | _ :: _, [], _, h1, _ => by simp [lexLe] at h1
  | _ :: _, _ :: _, [], _, h2 => by simp [lexLe] at h2
  | a :: as, b :: bs, c :: cs, h1, h2 => by
    simp only [lexLe] at h1 h2 ⊢
    rcases Nat.lt_trichotomy a.toNat b.toNat with hab | hab | hab <;>
      rcases Nat.lt_trichotomy b.toNat c.toNat with hbc | hbc | hbc
    · simp [show a.toNat < c.toNat by omega]
    · simp [show a.toNat < c.toNat by omega]
    · -- b > c: lexLe (b::bs) (c::cs) reduces to false
      rw [if_neg (by omega), if_pos hbc] at h2; exact absurd h2 (by simp)
    · simp [show a.toNat < c.toNat by omega]
    · -- a = b, b = c
      rw [if_neg (by omega), if_neg (by omega)] at h1
      rw [if_neg (by omega), if_neg (by omega)] at h2
      rw [if_neg (by omega), if_neg (by omega)]
      exact lexLe_trans as bs cs h1 h2
    · rw [if_neg (by omega), if_pos hbc] at h2; exact absurd h2 (by simp)
    · rw [if_neg (by omega), if_pos hab] at h1; exact absurd h1 (by simp)
    · rw [if_neg (by omega), if_pos hab] at h1; exact absurd h1 (by simp)
    · rw [if_neg (by omega), if_pos hab] at h1; exact absurd h1 (by simp)

theorem lexLe_antisymm : ∀ (as bs : List Char),
    lexLe as bs = true → lexLe bs as = true → as = bs
  | [], [], _, _ => rfl
  | [], _ :: _, _, h2 => by simp [lexLe] at h2
  | _ :: _, [], h1, _ => by simp [lexLe] at h1
  | a :: as, b :: bs, h1, h2 => by
    simp only [lexLe] at h1 h2
    rcases Nat.lt_trichotomy a.toNat b.toNat with h | h | h
    · rw [if_neg (by omega), if_pos h] at h2; exact absurd h2 (by simp)
    · rw [if_neg (by omega), if_neg (by omega)] at h1
      rw [if_neg (by omega), if_neg (by omega)] at h2
      rw [charEq_of_toNat_eq h, lexLe_antisymm as bs h1 h2]
    · rw [if_neg (by omega), if_pos h] at h1; exact absurd h1 (by simp)

theorem strLe_total (a b : String) : strLe a b = true ∨ strLe b a = true :=
  lexLe_total a.data b.data

theorem strLe_trans {a b c : String} (h1 : strLe a b = true) (h2 : strLe b c = true) :
    strLe a c = true :=
  lexLe_trans a.data b.data c.data h1 h2

theorem strLe_antisymm {a b : String} (h1 : strLe a b = true) (h2 : strLe b a = true) :
    a = b := by
  cases a; cases b
  exact congrArg String.mk (lexLe_antisymm _ _ h1 h2)

/-! ## Scheduler invariant -/

/-- In every reachable server state, the number of in-flight check cycles
is exactly one while the guard is held and zero otherwise. -/
theorem reachable_inflight {s : SrvState} (h : Reachable s) :
    s.inflight.length = (if s.isCheckingRunning then 1 else 0) := by
  induction h with
  | init startNow => rfl
  | step e h ih =>
    rename_i s
    cases e with
    | manualReq now =>
      by_cases hr : s.isCheckingRunning
      · simpa [step, hr] using ih
      · simp [hr] at ih
        simp [step, hr, ih]
    | tick now =>
      by_cases hr : s.isCheckingRunning
      · simpa [step, hr] using ih
      · by_cases hd : s.nextCheckTs ≤ now
        · simp [hr] at ih
          simp [step, hr, hd, ih]
        · simpa [step, hr, hd] using ih
    | cycleEnd now ok emitOk =>
      cases hi : s.inflight with
      | nil =>
        rw [hi] at ih
        simp [step, hi]
        simpa using ih
      | cons k rest =>
        rw [hi] at ih
        by_cases hr : s.isCheckingRunning
        · simp [hr] at ih
          simp [step, hi, ih]
        · simp [hr] at ih
    | configSchedule now lastTs cron =>
      cases cron with
      | none => simpa [step] using ih
      | some c => simpa [step] using ih

/-! ## C3: mutual exclusion of check cycles -/

/-- C3.  While a check cycle is in flight (`isCheckingRunning = true`), a
manual `POST /api/check` is answered 429 with the state untouched (no new
work scheduled), and the 1-second scheduler tick leaves the state
untouched as well; consequently no reachable state has more than one
check cycle in flight — the second of two back-to-back manual triggers is
rejected, not queued. -/
theorem mutual_exclusion (s : SrvState) (h : Reachable s) :
    s.inflight.length ≤ 1 ∧
    ∀ now : Int, s.isCheckingRunning = true →
      step s (Ev.manualReq now) = (s, Resp.busy429) ∧
      step s (Ev.tick now) = (s, Resp.noop) := by
  refine ⟨?_, ?_⟩
  · have hinv := reachable_inflight h
    split at hinv <;> omega
  · intro now hr
    exact ⟨by simp [step, hr], by simp [step, hr]⟩

/-- Witness for `mutual_exclusion`: at server start the invariant holds,
and after an accepted manual trigger a second, back-to-back manual
trigger is rejected with 429 and changes nothing. -/
theorem mutual_exclusion_witness :
    (initState 0).inflight.length ≤ 1 ∧
    step ((step (initState 0) (Ev.manualReq 5)).1) (Ev.manualReq 6) =
      ((step (initState 0) (Ev.manualReq 5)).1, Resp.busy429) := by
  refine ⟨(mutual_exclusion (initState 0) (Reachable.init 0)).1, ?_⟩
  exact ((mutual_exclusion _ (Reachable.step _ (Reachable.init 0))).2 6 (by decide)).1

/-! ## C5: the next-check deadline after a trigger -/

/-- C5 counterexample.  The claim "the deadline is never left unchanged
from before the trigger" fails: in the reachable start state at time 100
the deadline is `100 + 300000`; a manual trigger accepted at that same
instant reassigns `nextCheckTs = now + scheduleIntervalMs`, which equals
the old value, so the deadline is left numerically unchanged. -/
theorem deadline_unchanged_cex :
    Reachable (initState 100) ∧
    (step (initState 100) (Ev.manualReq 100)).2 = Resp.accepted ∧
    (step (initState 100) (Ev.manualReq 100)).1.nextCheckTs = (initState 100).nextCheckTs :=
  ⟨Reachable.init 100, by decide, by decide⟩

/-- C5 (amended).  Immediately after any check starts, `nextCheckTs`
equals `now + scheduleIntervalMs`, and for a positive interval it is
strictly in the future.  A scheduler-fired check (which fires only when
the old deadline is ≤ now) always strictly advances the deadline; a
manual trigger also sets `now + scheduleIntervalMs` but may leave the
value numerically unchanged in the degenerate case where it already
equalled that sum. -/
theorem deadline_after_trigger (s : SrvState) (now : Int) :
    (s.isCheckingRunning = false →
      (step s (Ev.manualReq now)).1.nextCheckTs = now + s.scheduleIntervalMs ∧
      (0 < s.scheduleIntervalMs → now < (step s (Ev.manualReq now)).1.nextCheckTs)) ∧
    (s.isCheckingRunning = false → s.nextCheckTs ≤ now →
      (step s (Ev.tick now)).1.nextCheckTs = now + s.scheduleIntervalMs ∧
      (0 < s.scheduleIntervalMs → s.nextCheckTs < (step s (Ev.tick now)).1.nextCheckTs)) := by
  constructor
  · intro hr
    constructor
    · simp [step, hr]
    · intro hpos; simp [step, hr]; omega
  · intro hr hd
    constructor
    · simp [step, hr, hd]
    · intro hpos; simp [step, hr, hd]; omega

/-- Witness for `deadline_after_trigger` at the start state and time 400000:
the tick deadline has passed, the fired check re-arms the deadline to
`now + interval`, strictly later than both `now` and the old deadline. -/
theorem deadline_after_trigger_witness :
    (initState 0).isCheckingRunning = false ∧
    (initState 0).nextCheckTs ≤ 400000 ∧
    (step (initState 0) (Ev.tick 400000)).1.nextCheckTs = 400000 + (initState 0).scheduleIntervalMs ∧
    (0 < (initState 0).scheduleIntervalMs →
      (initState 0).nextCheckTs < (step (initState 0) (Ev.tick 400000)).1.nextCheckTs) :=
  ⟨by decide, by decide,
    ((deadline_after_trigger (initState 0) 400000).2 (by decide) (by decide)).1,
    ((deadline_after_trigger (initState 0) 400000).2 (by decide) (by decide)).2⟩

/-! ## C6: per-cycle errors are contained and the guard is always cleared -/

/-- C6.  When the in-flight cycle ends — whether `checkWebsite` resolved
(`ok = true`) or rejected with any error (login failure, content not
found, persistence error, notification transport error: `ok = false`),
and whether the subsequent `emitListingsUpdate` read succeeded or not —
the guard `isCheckingRunning` is cleared, no cycle remains in flight, and
the orchestrator keeps serving: an immediately following manual trigger
is accepted.  `step` being a total function is the model of "the
exception is caught at the orchestration boundary and the process does
not terminate". -/
theorem errors_contained (s : SrvState) (h : Reachable s) (now now' : Int) (ok emitOk : Bool)
    (hrun : s.isCheckingRunning = true) :
    (step s (Ev.cycleEnd now ok emitOk)).1.isCheckingRunning = false ∧
    (step s (Ev.cycleEnd now ok emitOk)).1.inflight = [] ∧
    (step ((step s (Ev.cycleEnd now ok emitOk)).1) (Ev.manualReq now')).2 = Resp.accepted := by
  have hinv := reachable_inflight h
  rw [hrun] at hinv
  simp at hinv
  obtain ⟨k, hk⟩ := List.length_eq_one.mp hinv
  refine ⟨?_, ?_, ?_⟩ <;> simp [step, hk]

/-- Witness for `errors_contained`: start a manual check from the start
state, let it fail (`ok = false`) with the listings re-read also failing;
the guard is still cleared. -/
theorem errors_contained_witness :
    (step ((step (initState 0) (Ev.manualReq 5)).1) (Ev.cycleEnd 9 false false)).1.isCheckingRunning
      = false :=
  (errors_contained _ (Reachable.step _ (Reachable.init 0)) 9 10 false false (by decide)).1

/-! ## C10: non-positive parsed intervals defeat the deadline clamp -/

/-- C10.  Well-formed 5-field schedule strings exist whose parsed interval
is not positive: `*/0 * * * *` parses to 0 ms and a star-slash minute
field with N = -5 parses to -300000 ms.  Under a non-positive interval, whenever the re-anchoring
clamp fires (`lastTs + interval ≤ now`), its output `now + interval` is
not strictly in the future; in particular a schedule update to
`*/0 * * * *` whose newest listing timestamp is not in the future leaves
`nextCheckTs ≤ now`, so the scheduler's guard against past deadlines
fails. -/
theorem nonpositive_interval_defeats_clamp :
    parseCronToMs (some "*/0 * * * *") = 0 ∧
    parseCronToMs (some "*/-5 * * * *") = -300000 ∧
    (∀ now lastTs i : Int, i ≤ 0 → lastTs + i ≤ now → reAnchor now lastTs i ≤ now) ∧
    (∀ (s : SrvState) (now lastTs : Int), lastTs ≤ now →
      (step s (Ev.configSchedule now (some lastTs) (some "*/0 * * * *"))).1.nextCheckTs ≤ now) := by
  refine ⟨by decide, by decide, ?_, ?_⟩
  · intro now lastTs i hi hc
    unfold reAnchor
    rw [if_pos hc]
    omega
  · intro s now lastTs hlast
    have h0 : parseCronToMs (some "*/0 * * * *") = 0 := by decide
    simp [step, h0, reAnchor]
    omega

/-- Witness for `nonpositive_interval_defeats_clamp`: with interval 0 and
`lastTs = now = 1000`, the clamp fires and produces a deadline that is
not in the future. -/
theorem nonpositive_interval_defeats_clamp_witness :
    reAnchor 1000 1000 0 ≤ 1000 ∧
    (step (initState 0) (Ev.configSchedule 1000 (some 900) (some "*/0 * * * *"))).1.nextCheckTs
      ≤ 1000 :=
  ⟨nonpositive_interval_defeats_clamp.2.2.1 1000 1000 0 (by decide) (by decide),
    nonpositive_interval_defeats_clamp.2.2.2 (initState 0) 1000 900 (by decide)⟩

/-! ## C2: fingerprint invariance under input reordering -/

/-- C2 counterexample.  The claimed invariance does not extend to lists
with two distinct listings sharing the same URL: `itemNoUrlX` and
`itemNoUrlY` both have the empty URL; the two orderings of the pair are
permutations of each other, yet (JS sort being stable, so ties keep input
order) they hash to different fingerprints. -/
theorem fingerprint_reorder_cex :
    ([itemNoUrlX, itemNoUrlY] : List Item).Perm [itemNoUrlY, itemNoUrlX] ∧
    fingerprint [itemNoUrlX, itemNoUrlY] ≠ fingerprint [itemNoUrlY, itemNoUrlX] :=
  ⟨by decide, by decide⟩

/-- C2 (amended).  The fingerprint is invariant under reordering of the
input for every list in which no two listings share the same URL value:
any permutation of such a list yields the same hash, because the triples
are sorted by URL before hashing. -/
theorem fingerprint_perm_invariant (l₁ l₂ : List Item)
    (hp : l₁.Perm l₂) (hn : (l₁.map Item.url).Nodup) :
    fingerprint l₁ = fingerprint l₂ := by
  haveI : IsTotal Triple urlLe := ⟨fun a b => strLe_total a.url b.url⟩
  haveI : IsTrans Triple urlLe := ⟨fun _ _ _ h1 h2 => strLe_trans h1 h2⟩
  have hperm : (fingerprint l₁).Perm (fingerprint l₂) :=
    ((List.perm_insertionSort urlLe (l₁.map tripleOf)).trans (hp.map tripleOf)).trans
      (List.perm_insertionSort urlLe (l₂.map tripleOf)).symm
  have hmapurl : ∀ l : List Item, (l.map tripleOf).map Triple.url = l.map Item.url := by
    intro l
    rw [List.map_map]
    rfl
  have hn₁ : ((fingerprint l₁).map Triple.url).Nodup := by
    refine (((List.perm_insertionSort urlLe (l₁.map tripleOf)).map Triple.url).nodup_iff).mpr ?_
    rw [hmapurl]
    exact hn
  have hn₂ : ((fingerprint l₂).map Triple.url).Nodup :=
    ((hperm.map Triple.url).nodup_iff).mp hn₁
  have hs₁ : List.Pairwise (fun a b : Triple => urlLe a b ∧ a.url ≠ b.url) (fingerprint l₁) :=
    (List.sorted_insertionSort urlLe (l₁.map tripleOf)).and (List.pairwise_map.mp hn₁)
  have hs₂ : List.Pairwise (fun a b : Triple => urlLe a b ∧ a.url ≠ b.url) (fingerprint l₂) :=
    (List.sorted_insertionSort urlLe (l₂.map tripleOf)).and (List.pairwise_map.mp hn₂)
  haveI : IsAntisymm Triple (fun a b : Triple => urlLe a b ∧ a.url ≠ b.url) :=
    ⟨fun _ _ h1 h2 => absurd (strLe_antisymm h1.1 h2.1) h1.2⟩
  exact List.eq_of_perm_of_sorted hperm hs₁ hs₂

/-- Witness for `fingerprint_perm_invariant`: two sample listings with
distinct URLs, swapped, give the same fingerprint. -/
theorem fingerprint_perm_invariant_witness :
    ([itemA, itemB] : List Item).Perm [itemB, itemA] ∧
    (([itemA, itemB] : List Item).map Item.url).Nodup ∧
    fingerprint [itemA, itemB] = fingerprint [itemB, itemA] :=
  ⟨by decide, by decide, fingerprint_perm_invariant [itemA, itemB] [itemB, itemA]
    (by decide) (by decide)⟩

/-! ## C1: the three-case contract of the change detection -/

theorem sameTriple_iff (o n : Item) : sameTriple o n = true ↔ tripleOf o = tripleOf n := by
  simp [sameTriple, tripleOf, Triple.mk.injEq, and_assoc]

/-- The per-item Bool computed by the code's new-item filter equals the
spec-side "triple does not appear in the previous snapshot" test. -/
theorem newFilter_eq (prev : List Item) (n : Item) :
    (!(prev.any (fun o => sameTriple o n))) =
      decide (tripleOf n ∉ prev.map tripleOf) := by
  by_cases h : tripleOf n ∈ prev.map tripleOf
  · obtain ⟨o, ho, heq⟩ := List.mem_map.mp h
    have : prev.any (fun o => sameTriple o n) = true :=
      List.any_eq_true.mpr ⟨o, ho, (sameTriple_iff o n).mpr heq⟩
    simp [this, h]
  · have : prev.any (fun o => sameTriple o n) = false := by
      rw [List.any_eq_false]
      intro o ho hsame
      exact h (List.mem_map.mpr ⟨o, ho, (sameTriple_iff o n).mp hsame⟩)
    simp [this, h]

/-- C1.  The newItems set computed by a check satisfies the three-case
contract: the previous fingerprint is absent exactly on the first-ever
check for the target (no stored listings); in that case newItems is the
full extracted list; when previous and current fingerprints differ,
newItems is exactly the extracted items whose (title, price, url) triple
does not appear in the stored snapshot read before any mutation; when
the fingerprints coincide, newItems is empty.  Finally, the concrete
two-check scenario: stored [A, B] then extracted [A, B, C] yields
newItems = [C]. -/
theorem processCheckResult_contract (selector : String) (db : List Stored)
    (extracted : List Item) :
    (getPreviousHash selector db = none ↔ storedFor selector db = []) ∧
    (getPreviousHash selector db = none →
      (runCheckFor selector extracted db).2 = extracted) ∧
    (∀ ph, getPreviousHash selector db = some ph → fingerprint extracted ≠ ph →
      (runCheckFor selector extracted db).2 =
        extracted.filter (fun n => decide (tripleOf n ∉ (storedFor selector db).map tripleOf))) ∧
    (getPreviousHash selector db = some (fingerprint extracted) →
      (runCheckFor selector extracted db).2 = []) ∧
    (runCheckFor "sel" [itemA, itemB, itemC]
        (runCheckFor "sel" [itemA, itemB] []).1).2 = [itemC] := by
  refine ⟨?_, ?_, ?_, ?_, by decide⟩
  · simp [getPreviousHash, List.isEmpty_iff]
  · intro h
    simp [runCheckFor, h]
  · intro ph h hne
    rw [runCheckFor]
    simp only [h, hne, if_pos, ne_eq, not_false_eq_true, if_true]
    exact List.filter_congr (fun n _ => newFilter_eq (storedFor selector db) n)
  · intro h
    simp [runCheckFor, h]

/-- Witness for `processCheckResult_contract`: first check on an empty
store reports everything new; a changed second check reports exactly the
items missing from the previous snapshot. -/
theorem processCheckResult_contract_witness :
    (runCheckFor "sel" [itemC] []).2 = [itemC] ∧
    (runCheckFor "sel" [itemA, itemC] [⟨"sel", itemA⟩]).2 =
      [itemA, itemC].filter
        (fun n => decide (tripleOf n ∉ (storedFor "sel" [⟨"sel", itemA⟩]).map tripleOf)) :=
  ⟨(processCheckResult_contract "sel" [] [itemC]).2.1 (by decide),
    (processCheckResult_contract "sel" [⟨"sel", itemA⟩] [itemA, itemC]).2.2.1
      (fingerprint [itemA]) (by decide) (by decide)⟩

/-! ## C4: uniqueness of (title, price, url) after the write path -/

theorem itemKey_eq_of_tripleOf_eq {a b : Item} (h : tripleOf a = tripleOf b) :
    itemKey a = itemKey b := by
  simp [tripleOf, Triple.mk.injEq] at h
  simp [itemKey, h.1, h.2.1, h.2.2]

/-- The `reduce` accumulator preserves `KeyInv`: initially the key map is
empty; an item is appended only when its key is not yet present. -/
theorem dedup_fold_inv (existing : List Item) :
    ∀ (items : List Item) (acc : List (String × Item)), KeyInv acc →
      KeyInv (items.foldl (dedupStep existing) acc)
  | [], _, h => h
  | it :: items, acc, h => by
    refine dedup_fold_inv existing items (dedupStep existing acc it) ?_
    unfold dedupStep
    dsimp only
    split
    case isTrue hcond =>
      obtain ⟨hnd, hkey⟩ := h
      have hfresh : itemKey it ∉ acc.map Prod.fst := by
        intro hmem
        obtain ⟨p, hp, hpk⟩ := List.mem_map.mp hmem
        have hany : acc.any (fun p => decide (p.1 = itemKey it)) = true :=
          List.any_eq_true.mpr ⟨p, hp, by simp [hpk]⟩
        rw [Bool.and_eq_true] at hcond
        have hfa := of_decide_eq_true hcond.1
        rw [hany] at hfa
        cases hfa
      constructor
      · rw [List.map_append]
        simp only [List.map_cons, List.map_nil]
        exact List.Nodup.append hnd (List.nodup_singleton _)
          (List.disjoint_singleton.mpr hfresh)
      · intro p hp
        rcases List.mem_append.mp hp with hp | hp
        · exact hkey p hp
        · simp at hp
          rw [hp]
    case isFalse => exact h

/-- The deduplicated batch has pairwise-distinct (title, price, url)
triples: its keys are pairwise distinct, and equal triples would give
equal keys. -/
theorem uniqueItemsArray_pairwise (existing items : List Item) :
    List.Pairwise (fun a b => tripleOf a ≠ tripleOf b)
      (uniqueItemsArray existing items) := by
  obtain ⟨hnd, hkey⟩ := dedup_fold_inv existing items [] ⟨List.nodup_nil, by simp⟩
  unfold uniqueItemsArray
  rw [List.pairwise_map]
  have hp : List.Pairwise (fun p q : String × Item => p.1 ≠ q.1)
      (items.foldl (dedupStep existing) []) := List.pairwise_map.mp hnd
  refine hp.imp_of_mem ?_
  intro p q hpm hqm hne heq
  exact hne (by rw [hkey p hpm, hkey q hqm]; exact itemKey_eq_of_tripleOf_eq heq)

/-- After `saveContent`, the listings stored for the selector are exactly
the deduplicated batch: the old rows were deleted, the post-delete read
is empty, and every inserted row carries the selector. -/
theorem storedFor_saveContent (selector : String) (items : List Item) (db : List Stored) :
    storedFor selector (saveContent selector items db) = uniqueItemsArray [] items := by
  have h1 : (db.filter (fun s => decide (s.selector ≠ selector))).filter
      (fun s => decide (s.selector = selector)) = [] := by
    refine List.filter_eq_nil_iff.mpr ?_
    intro a ha
    have := List.of_mem_filter ha
    simp at this ⊢
    exact this
  unfold storedFor saveContent
  dsimp only
  rw [List.filter_append, h1, List.map_nil]
  simp [List.filter_map, Function.comp_def]

/-- C4.  The persistence write path preserves the uniqueness invariant:
after every save, no two listings stored for the target share a
(title, price, url) triple; and of a batch holding two entries with an
identical triple but different descriptions, exactly one — the first —
survives persistence. -/
theorem saveContent_dedup_invariant (selector : String) (batch : List Item)
    (db : List Stored) :
    List.Pairwise (fun a b => tripleOf a ≠ tripleOf b)
      (storedFor selector (saveContent selector batch db)) ∧
    saveContent "sel" [dupFirst, dupSecond] [] = [⟨"sel", dupFirst⟩] := by
  refine ⟨?_, by decide⟩
  rw [storedFor_saveContent]
  exact uniqueItemsArray_pairwise [] batch

/-! ## C9: extractor keeps an item exactly when its title is non-empty -/

theorem string_ne_empty_iff_length_pos (s : String) : s ≠ "" ↔ 0 < s.length := by
  cases s with
  | mk data =>
    cases data with
    | nil => simp [String.length]
    | cons c cs =>
      simp only [String.length]
      constructor
      · intro _
        simp
      · intro _ h
        rw [show ("" : String) = ⟨[]⟩ from rfl] at h
        cases h

/-- C9.  An item is kept by the extractor's validation if and only if its
title is a non-empty string; in particular an item with a non-empty title
but an empty URL is kept, while an item with an empty title is dropped
even though price and url are present. -/
theorem extractor_title_validation (items : List Item) (it : Item) :
    (it ∈ processedItems items ↔ it ∈ items ∧ it.title ≠ "") ∧
    processedItems [⟨"Nice chair", "€ 10", "", ""⟩] = [⟨"Nice chair", "€ 10", "", ""⟩] ∧
    processedItems [⟨"", "€ 10", "https://site.example/x", ""⟩] = [] := by
  refine ⟨?_, by decide, by decide⟩
  unfold processedItems
  rw [List.filterMap_map]
  simp only [Function.comp_def, id]
  constructor
  · intro h
    obtain ⟨a, ha, hval⟩ := List.mem_filterMap.mp h
    unfold validateItem at hval
    split at hval
    · cases hval
      exact ⟨ha, (string_ne_empty_iff_length_pos _).mpr (by assumption)⟩
    · cases hval
  · rintro ⟨hm, ht⟩
    refine List.mem_filterMap.mpr ⟨it, hm, ?_⟩
    unfold validateItem
    rw [if_pos ((string_ne_empty_iff_length_pos _).mp ht)]

/-! ## C8: the restricted cron-string subset -/

/-- C8 counterexample.  `0 5 * * *` is a well-formed 5-field string that
matches none of the three claimed shapes, yet it does not fall back to
the 5-minute default: a `0` minute with any hour other than a parseable
`*/H` takes the hourly default, 3,600,000 ms. -/
theorem parseCron_other_shape_cex :
    parseCronToMs (some "0 5 * * *") = 3600000 ∧ (3600000 : Int) ≠ 300000 :=
  ⟨by decide, by decide⟩

/-- C8 (amended).  The parser satisfies: `*/10 * * * *` ↦ 600,000 ms;
`0 */8 * * *` ↦ 28,800,000 ms; minute `0` with hour `*` ↦ 3,600,000 ms;
non-string input and non-5-field strings ↦ the 5-minute default; a
5-field string whose minute is `0` and whose hour is not a parseable
`*/H` ↦ the hourly default 3,600,000 ms (not 5 minutes); and a 5-field
string whose minute is neither `*/...` nor `0` ↦ the 5-minute default. -/
theorem parseCronToMs_spec :
    parseCronToMs (some "*/10 * * * *") = 600000 ∧
    parseCronToMs (some "0 */8 * * *") = 28800000 ∧
    parseCronToMs (some "0 * * * *") = 3600000 ∧
    parseCronToMs none = 300000 ∧
    parseCronToMs (some "every five minutes") = 300000 ∧
    (∀ minute hour : List Char, starSlash minute = none → minute ≠ ['0'] →
      parseCronFields minute hour = 300000) ∧
    (∀ hour : List Char, (∀ rest, starSlash hour = some rest → jsParseInt rest = none) →
      parseCronFields ['0'] hour = 3600000) ∧
    (∀ (s : String) (minute hour f₃ f₄ f₅ : List Char),
      wsTokens s.data = [minute, hour, f₃, f₄, f₅] →
      parseCronToMs (some s) = parseCronFields minute hour) := by
  refine ⟨by decide, by decide, by decide, by decide, by decide, ?_, ?_, ?_⟩
  · intro minute hour hss hm
    unfold parseCronFields
    rw [hss, if_neg hm]
    rfl
  · intro hour hh
    unfold parseCronFields
    rw [show starSlash ['0'] = none from rfl, if_pos rfl]
    cases hs : starSlash hour with
    | none => rfl
    | some rest =>
      dsimp only
      rw [hh rest hs]
      rfl
  · intro s minute hour f₃ f₄ f₅ h
    simp only [parseCronToMs]
    rw [h]

/-- Witness for `parseCronToMs_spec`: the fallback branches evaluated at
concrete field tokens and a concrete 5-field string. -/
theorem parseCronToMs_spec_witness :
    parseCronFields ['1'] ['*'] = 300000 ∧
    parseCronFields ['0'] ['x'] = 3600000 ∧
    parseCronToMs (some "a b c d e") = parseCronFields ['a'] ['b'] := by
  refine ⟨parseCronToMs_spec.2.2.2.2.2.1 ['1'] ['*'] (by decide) (by decide),
    parseCronToMs_spec.2.2.2.2.2.2.1 ['x'] ?_,
    parseCronToMs_spec.2.2.2.2.2.2.2 "a b c d e" ['a'] ['b'] ['c'] ['d'] ['e'] (by decide)⟩
  intro rest h
  simp [starSlash] at h

/-! ## C7: only the first configured selector is checked -/

/-- C7 counterexample.  With two configured selectors, the fired cycle
processes only the first: the second selector is an active target but is
absent from the processed set, refuting "a full pipeline runs for every
active target". -/
theorem first_selector_only_cex :
    ("sel2" : String) ∈ (["sel1", "sel2"] : List String) ∧
    (checkWebsite ["sel1", "sel2"] [itemA] []).map CheckRun.processed = some ["sel1"] ∧
    ("sel2" : String) ∉ (["sel1"] : List String) :=
  ⟨by decide, by decide, by decide⟩

/-- C7 (amended).  Each fired check cycle performs the extract → diff →
persist → notify pipeline only for the first configured selector
(`config.website.selectors[0]`): the processed-target set is `[sel]`
whatever further selectors are configured, and the whole cycle result is
independent of them. -/
theorem checkWebsite_first_selector_only (sel : String) (rest rest' : List String)
    (extracted : List Item) (db : List Stored) :
    (∀ run, checkWebsite (sel :: rest) extracted db = some run → run.processed = [sel]) ∧
    checkWebsite (sel :: rest) extracted db = checkWebsite (sel :: rest') extracted db := by
  refine ⟨?_, rfl⟩
  intro run h
  cases h
  rfl

/-- Witness for `checkWebsite_first_selector_only`: the concrete run for
selector list `["s1", "s2"]` processes exactly `["s1"]`. -/
theorem checkWebsite_first_selector_only_witness :
    (CheckRun.mk [⟨"s1", itemA⟩] [itemA] ["s1"]).processed = ["s1"] :=
  (checkWebsite_first_selector_only "s1" ["s2"] ["s2"] [itemA] []).1
    (CheckRun.mk [⟨"s1", itemA⟩] [itemA] ["s1"]) (by decide)

end SiteMonitor
